import Mathlib

/-!
Verification of the chunking and span-reconstruction pipeline of the
chatBot_RAG repository (module `src/rag/chunking.py`).

The embedding models Python strings as `List Char`, Python dictionaries
(the per-chunk `metadata` mapping) as insertion-ordered association
lists, and fallible calls as `Except String`.  The two langchain text
splitters are external to the repository; they appear as opaque function
parameters, except for the configuration check performed by the
`TextSplitter` constructor, which is modelled from the library's
published behaviour (it rejects exactly `chunk_overlap > chunk_size`).
-/

/-- A value stored in a chunk's metadata mapping: a string, an integer,
or Python's `None`. -/
inductive MetaVal where
  | vStr (s : String)
  | vInt (n : Int)
  | vNone
deriving DecidableEq, Repr

/-- A Python dict used as chunk metadata: an insertion-ordered
association list from string keys to values. -/
abbrev Metadata := List (String × MetaVal)

/-- Python `m.get(k)`: the value stored at `k`, if any. -/
def metaGet : Metadata → String → Option MetaVal
  | [], _ => none
  | (k', v) :: rest, k => if k' = k then some v else metaGet rest k

/-- Python `m[k] = v`: replace the value at `k` in place if the key is
present, otherwise append the new binding. -/
def metaSet : Metadata → String → MetaVal → Metadata
  | [], k, v => [(k, v)]
  | (k', v') :: rest, k, v =>
    if k' = k then (k, v) :: rest else (k', v') :: metaSet rest k v

/-- Python `m.setdefault(k, v)`: insert `v` at `k` only when the key is
absent. -/
def metaSetdefault (m : Metadata) (k : String) (v : MetaVal) : Metadata :=
  match metaGet m k with
  | some _ => m
  | none => metaSet m k v

/-- A langchain `Document`: `page_content` plus a metadata dict.  Chunks
produced by the splitters are values of the same type. -/
structure Document where
  page_content : List Char
  metadata : Metadata
deriving DecidableEq, Repr, Inhabited

/-- The whitespace characters stripped by Python's `str.strip()`
(restricted to the ASCII whitespace set). -/
def isPySpace (ch : Char) : Bool :=
  ch = ' ' || ch = '\t' || ch = '\n' || ch = '\r' || ch = '\x0b' || ch = '\x0c'

/-- Python `s.strip()`: drop leading and trailing whitespace. -/
def pyStrip (s : List Char) : List Char :=
  ((s.dropWhile isPySpace).reverse.dropWhile isPySpace).reverse

/-- Search loop behind `pyFind`: try positions `p, p+1, …` for `fuel`
steps, returning the first position where `sub` occurs. -/
def findAux (s sub : List Char) (p : Nat) : Nat → Option Nat
  | 0 => none
  | fuel + 1 =>
    if sub.isPrefixOf (s.drop p) then some p else findAux s sub (p + 1) fuel

/-- Python `s.find(sub, start)` (with a non-negative `start`), returning
`none` instead of `-1`: the least `p ≥ start` with `p + |sub| ≤ |s|` at
which `sub` occurs in `s`. -/
def pyFind (s sub : List Char) (start : Nat) : Option Nat :=
  if start ≤ s.length then findAux s sub start (s.length + 1 - start) else none

/-- Python `s[a:b]` for non-negative indices. -/
def pySlice (s : List Char) (a b : Nat) : List Char :=
  (s.drop a).take (b - a)

/-- Python `str(v)` on a metadata value. -/
def strOfVal : MetaVal → String
  | MetaVal.vStr s => s
  | MetaVal.vInt n => toString n
  | MetaVal.vNone => "None"

/-- `doc.metadata.get("source", "")` from `_split_documents_auto`. -/
def getSource (m : Metadata) : MetaVal :=
  (metaGet m "source").getD (MetaVal.vStr "")

/-- `str(source).lower().endswith((".md", ".mdx"))` from
`_split_documents_auto`, with `lower`/`endswith` spelled out on the
character list. -/
def isMarkdownSource (v : MetaVal) : Bool :=
  let s := (strOfVal v).toList.map Char.toLower
  List.isSuffixOf (String.toList ".md") s || List.isSuffixOf (String.toList ".mdx") s

/-- `_split_documents_auto` from `src/rag/chunking.py` (lines 28-50):
Markdown sources are header-split and then windowed, others windowed
directly; every chunk inherits the document's `source`.  The two
langchain splitters are opaque parameters. -/
def split_documents_auto (header_splitter : List Char → List Document)
    (splitter : List Document → List Document) : List Document → List Document
  | [] => []
  | doc :: rest =>
    let source := getSource doc.metadata
    let chunks :=
      if isMarkdownSource source then
        let md_docs := (header_splitter doc.page_content).map
          (fun d => { d with metadata := metaSet d.metadata "source" source })
        (splitter md_docs).map
          (fun c => { c with metadata := metaSetdefault c.metadata "source" source })
      else
        (splitter [doc]).map
          (fun c => { c with metadata := metaSetdefault c.metadata "source" source })
    chunks ++ split_documents_auto header_splitter splitter rest

/-- `_split_documents_recursive_only` from `src/rag/chunking.py`
(lines 53-61). -/
def split_documents_recursive_only
    (splitter : List Document → List Document) (docs : List Document) : List Document :=
  let chunks := splitter docs
  if docs.length = 1 then
    let source := getSource (docs.headD default).metadata
    chunks.map (fun c => { c with metadata := metaSetdefault c.metadata "source" source })
  else
    chunks

/-- The error message of the configuration check (numbers elided). -/
def configErrorMsg : String :=
  "Got a larger chunk overlap than chunk size, should be smaller"

/-- The error message raised for a span request on a batch that is not a
single document (`src/rag/chunking.py` line 127). -/
def spanUsageErrorMsg : String :=
  "include_spans requires a single-document input"

/-- `build_splitters` from `src/rag/chunking.py` (lines 16-25), reduced
to its observable effect on control flow.  Modelled from the langchain
`TextSplitter` constructor (a dependency outside this repository): it
raises `ValueError` exactly when `chunk_overlap > chunk_size`; the
constructor performs no other validation, in particular it accepts
`chunk_overlap = chunk_size` and non-positive `chunk_size`. -/
def build_splitters (chunk_size chunk_overlap : Int) : Except String Unit :=
  if chunk_size < chunk_overlap then Except.error configErrorMsg else Except.ok ()

/-- Step 2 of the span locator (`src/rag/chunking.py` lines 73-78):
search for the whitespace-stripped content, provided stripping changed
it and left it non-empty. -/
def spanResStep2 (original : List Char) (cursor : Nat) (text : List Char) :
    Option (Nat × Nat) :=
  if pyStrip text ≠ [] ∧ pyStrip text ≠ text then
    match pyFind original (pyStrip text) cursor with
    | some p => some (p, p + (pyStrip text).length)
    | none => none
  else none

/-- Step 3 of the span locator (`src/rag/chunking.py` lines 79-85):
search for the stripped 200-character prefix probe; on success the end
offset is the approximate `min(len(original_text), start + len(text))`. -/
def spanResStep3 (original : List Char) (cursor : Nat) (text : List Char) :
    Option (Nat × Nat) :=
  if pyStrip (text.take (min 200 text.length)) ≠ [] then
    match pyFind original (pyStrip (text.take (min 200 text.length))) cursor with
    | some p => some (p, min original.length (p + text.length))
    | none => none
  else none

/-- One iteration of the matching logic of `add_spans_inplace`
(`src/rag/chunking.py` lines 67-85): the resolved `(start, end)` pair
for one chunk text at the current cursor, or `none` when all three
attempts (exact, whitespace-stripped, bounded prefix probe) fail. -/
def spanRes (original : List Char) (cursor : Nat) (text : List Char) : Option (Nat × Nat) :=
  match pyFind original text cursor with
  | some start => some (start, start + text.length)
  | none =>
    match spanResStep2 original cursor text with
    | some pe => some pe
    | none => spanResStep3 original cursor text

/-- Write a `span_start`/`span_end` pair into a metadata dict
(`src/rag/chunking.py` lines 87-88 and 90-91). -/
def setSpanMeta (m : Metadata) (v w : MetaVal) : Metadata :=
  metaSet (metaSet m "span_start" v) "span_end" w

/-- The body of the per-chunk loop of `add_spans_inplace`
(`src/rag/chunking.py` lines 66-92): the updated chunk together with the
cursor for the next chunk. -/
def spanStep (original : List Char) (cursor : Nat) (c : Document) : Document × Nat :=
  match spanRes original cursor c.page_content with
  | none => ({ c with metadata := setSpanMeta c.metadata MetaVal.vNone MetaVal.vNone }, cursor)
  | some (s, e) =>
    ({ c with metadata := setSpanMeta c.metadata (MetaVal.vInt (Int.ofNat s)) (MetaVal.vInt (Int.ofNat e)) }, e)

/-- The loop of `add_spans_inplace`, threading the cursor. -/
def addSpansGo (original : List Char) (cursor : Nat) : List Document → List Document
  | [] => []
  | c :: rest =>
    (spanStep original cursor c).1 ::
      addSpansGo original (spanStep original cursor c).2 rest

/-- `add_spans_inplace` from `src/rag/chunking.py` (lines 64-92),
returning the updated chunks instead of mutating them. -/
def add_spans_inplace (original : List Char) (chunks : List Document) : List Document :=
  addSpansGo original 0 chunks

/-- The cursor value in force when `add_spans_inplace` reaches the chunk
at position `i`, starting from `cursor`. -/
def cursorBefore (original : List Char) (cursor : Nat) : List Document → Nat → Nat
  | [], _ => cursor
  | _ :: _, 0 => cursor
  | c :: rest, i + 1 => cursorBefore original (spanStep original cursor c).2 rest i

/-- Whether step 1 (exact substring match) of the span locator succeeds
for `text` at `cursor`. -/
def step1Fires (original : List Char) (cursor : Nat) (text : List Char) : Bool :=
  (pyFind original text cursor).isSome

/-- Whether step 2 (whitespace-stripped match) of the span locator is
reached and succeeds for `text` at `cursor`. -/
def step2Fires (original : List Char) (cursor : Nat) (text : List Char) : Bool :=
  (pyFind original text cursor).isNone &&
    (decide (pyStrip text ≠ []) && decide (pyStrip text ≠ text)) &&
    (pyFind original (pyStrip text) cursor).isSome

/-- The `span_start` value of a chunk, when it is a resolved integer. -/
def spanStartOf (c : Document) : Option Int :=
  match metaGet c.metadata "span_start" with
  | some (MetaVal.vInt a) => some a
  | _ => none

/-- The resolved `span_start` values of a chunk sequence, in order,
skipping chunks with null or absent spans. -/
def resolvedStarts (l : List Document) : List Int :=
  l.filterMap spanStartOf

/-- The per-chunk metadata assignment of `chunk_documents`
(`src/rag/chunking.py` lines 117-123) for the chunk at position `idx`. -/
def annotateOne (method : String) (chunk_size chunk_overlap : Int)
    (idx : Nat) (c : Document) : Document :=
  let m0 := metaSetdefault c.metadata "source" (MetaVal.vStr "")
  let m1 := metaSet m0 "chunk_index" (MetaVal.vInt (Int.ofNat idx))
  let m2 := metaSet m1 "chunk_chars" (MetaVal.vInt (Int.ofNat c.page_content.length))
  let m3 := metaSet m2 "chunking_method" (MetaVal.vStr method)
  let m4 := metaSet m3 "chunk_size" (MetaVal.vInt chunk_size)
  let m5 := metaSet m4 "chunk_overlap" (MetaVal.vInt chunk_overlap)
  { c with metadata := m5 }

/-- The `enumerate` loop of the preview-metadata block of
`chunk_documents`, carrying the running index. -/
def annotateGo (method : String) (chunk_size chunk_overlap : Int)
    (idx : Nat) : List Document → List Document
  | [] => []
  | c :: rest =>
    annotateOne method chunk_size chunk_overlap idx c ::
      annotateGo method chunk_size chunk_overlap (idx + 1) rest

/-- The preview-metadata annotation pass of `chunk_documents`
(`src/rag/chunking.py` lines 116-123). -/
def annotate (method : String) (chunk_size chunk_overlap : Int)
    (chunks : List Document) : List Document :=
  annotateGo method chunk_size chunk_overlap 0 chunks

/-- `chunk_documents` from `src/rag/chunking.py` (lines 95-129): build
the splitters (which validates the configuration), dispatch on `method`,
optionally annotate, optionally assign spans (single-document batches
only).  The two langchain splitters are opaque parameters. -/
def chunk_documents (header_splitter : List Char → List Document)
    (splitter : List Document → List Document)
    (docs : List Document) (chunk_size chunk_overlap : Int) (method : String)
    (include_preview_metadata include_spans : Bool) :
    Except String (List Document) :=
  match build_splitters chunk_size chunk_overlap with
  | Except.error e => Except.error e
  | Except.ok _ =>
    let chunks :=
      if method = "recursive_only" then
        split_documents_recursive_only splitter docs
      else
        split_documents_auto header_splitter splitter docs
    let chunks2 :=
      if include_preview_metadata then
        annotate method chunk_size chunk_overlap chunks
      else chunks
    if include_spans then
      if docs.length ≠ 1 then Except.error spanUsageErrorMsg
      else Except.ok (add_spans_inplace (docs.headD default).page_content chunks2)
    else Except.ok chunks2

/-! ### Laws of the metadata dictionary -/

theorem metaGet_metaSet_self (m : Metadata) (k : String) (v : MetaVal) :
    metaGet (metaSet m k v) k = some v := by
  induction m with
  | nil => simp [metaGet, metaSet]
  | cons p rest ih =>
    obtain ⟨k', v'⟩ := p
    by_cases h : k' = k
    · simp [metaSet, h, metaGet]
    · simp [metaSet, h, metaGet, ih]

theorem metaGet_metaSet_ne (m : Metadata) {k k' : String} (v : MetaVal) (h : k ≠ k') :
    metaGet (metaSet m k v) k' = metaGet m k' := by
  induction m with
  | nil => simp [metaGet, metaSet, h]
  | cons p rest ih =>
    obtain ⟨k'', v''⟩ := p
    by_cases h2 : k'' = k
    · simp [metaSet, h2, metaGet, h]
    · simp [metaSet, h2, metaGet, ih]

theorem metaSet_of_get_eq {m : Metadata} {k : String} {v : MetaVal}
    (h : metaGet m k = some v) : metaSet m k v = m := by
  induction m with
  | nil => simp [metaGet] at h
  | cons p rest ih =>
    obtain ⟨k', v'⟩ := p
    by_cases h2 : k' = k
    · subst h2
      simp [metaGet] at h
      simp [metaSet, h]
    · simp [metaGet, h2] at h
      simp [metaSet, h2, ih h]

theorem metaSetdefault_of_isSome {m : Metadata} {k : String} (v : MetaVal)
    (h : (metaGet m k).isSome) : metaSetdefault m k v = m := by
  cases hg : metaGet m k with
  | some w => simp [metaSetdefault, hg]
  | none => rw [hg] at h; simp at h

theorem metaGet_metaSetdefault_ne (m : Metadata) {k k' : String} (v : MetaVal)
    (h : k ≠ k') : metaGet (metaSetdefault m k v) k' = metaGet m k' := by
  cases hg : metaGet m k with
  | some w => simp [metaSetdefault, hg]
  | none => simp [metaSetdefault, hg, metaGet_metaSet_ne _ _ h]

theorem isSome_metaGet_metaSetdefault (m : Metadata) (k : String) (v : MetaVal) :
    (metaGet (metaSetdefault m k v) k).isSome := by
  cases hg : metaGet m k with
  | some w => simp [metaSetdefault, hg]
  | none => simp [metaSetdefault, hg, metaGet_metaSet_self]

theorem metaGet_setSpanMeta_start (m : Metadata) (v w : MetaVal) :
    metaGet (setSpanMeta m v w) "span_start" = some v := by
  unfold setSpanMeta
  rw [metaGet_metaSet_ne _ _ (by decide), metaGet_metaSet_self]

theorem metaGet_setSpanMeta_end (m : Metadata) (v w : MetaVal) :
    metaGet (setSpanMeta m v w) "span_end" = some w :=
  metaGet_metaSet_self _ _ _

/-! ### Soundness of the Python substring search -/

theorem findAux_some {s sub : List Char} {p fuel q : Nat}
    (h : findAux s sub p fuel = some q) :
    p ≤ q ∧ q < p + fuel ∧ sub.isPrefixOf (s.drop q) = true := by
  induction fuel generalizing p with
  | zero => simp [findAux] at h
  | succ n ih =>
    rw [findAux] at h
    by_cases hp : sub.isPrefixOf (s.drop p) = true
    · rw [if_pos hp] at h
      obtain rfl := Option.some.inj h
      exact ⟨Nat.le_refl _, by omega, hp⟩
    · rw [if_neg hp] at h
      obtain ⟨h1, h2, h3⟩ := ih h
      exact ⟨by omega, by omega, h3⟩

theorem pyFind_some {s sub : List Char} {start q : Nat}
    (h : pyFind s sub start = some q) :
    start ≤ q ∧ q + sub.length ≤ s.length ∧ pySlice s q (q + sub.length) = sub := by
  unfold pyFind at h
  by_cases hs : start ≤ s.length
  · rw [if_pos hs] at h
    obtain ⟨h1, h2, h3⟩ := findAux_some h
    have hpre : sub <+: s.drop q := List.isPrefixOf_iff_prefix.mp h3
    have hq : q ≤ s.length := by omega
    have hlen : sub.length ≤ (s.drop q).length := hpre.length_le
    rw [List.length_drop] at hlen
    refine ⟨h1, by omega, ?_⟩
    unfold pySlice
    rw [Nat.add_sub_cancel_left]
    exact (List.prefix_iff_eq_take.mp hpre).symm
  · rw [if_neg hs] at h
    exact absurd h (by simp)

/-! ### Facts about the three matching attempts -/

theorem spanResStep2_some {original text : List Char} {cursor s e : Nat}
    (h : spanResStep2 original cursor text = some (s, e)) :
    cursor ≤ s ∧ pyStrip text ≠ [] ∧ e = s + (pyStrip text).length ∧
      e ≤ original.length ∧ pySlice original s e = pyStrip text := by
  unfold spanResStep2 at h
  by_cases hg : pyStrip text ≠ [] ∧ pyStrip text ≠ text
  · rw [if_pos hg] at h
    cases hf : pyFind original (pyStrip text) cursor with
    | none => rw [hf] at h; exact absurd h (by simp)
    | some p =>
      rw [hf] at h
      obtain ⟨h1, h2⟩ := Prod.mk.injEq .. ▸ Option.some.inj h
      obtain ⟨hc, hl, hsl⟩ := pyFind_some hf
      subst h1
      exact ⟨hc, hg.1, h2.symm, h2 ▸ hl, h2 ▸ hsl⟩
  · rw [if_neg hg] at h
    exact absurd h (by simp)

theorem spanResStep3_some {original text : List Char} {cursor s e : Nat}
    (h : spanResStep3 original cursor text = some (s, e)) :
    cursor ≤ s ∧ s < original.length ∧ e = min original.length (s + text.length) ∧
      text ≠ [] := by
  unfold spanResStep3 at h
  by_cases hg : pyStrip (text.take (min 200 text.length)) ≠ []
  · rw [if_pos hg] at h
    cases hf : pyFind original (pyStrip (text.take (min 200 text.length))) cursor with
    | none => rw [hf] at h; exact absurd h (by simp)
    | some p =>
      rw [hf] at h
      obtain ⟨h1, h2⟩ := Prod.mk.injEq .. ▸ Option.some.inj h
      obtain ⟨hc, hl, _⟩ := pyFind_some hf
      subst h1
      have hplen : 0 < (pyStrip (text.take (min 200 text.length))).length :=
        List.length_pos.mpr hg
      have htext : text ≠ [] := by
        intro hte
        subst hte
        simp [pyStrip, List.dropWhile] at hg
      exact ⟨hc, by omega, h2.symm, htext⟩
  · rw [if_neg hg] at h
    exact absurd h (by simp)

theorem spanRes_some {original text : List Char} {cursor s e : Nat}
    (h : spanRes original cursor text = some (s, e)) :
    cursor ≤ s ∧ s ≤ e ∧ e ≤ original.length := by
  unfold spanRes at h
  cases hf : pyFind original text cursor with
  | some p =>
    rw [hf] at h
    obtain ⟨h1, h2⟩ := Prod.mk.injEq .. ▸ Option.some.inj h
    obtain ⟨hc, hl, _⟩ := pyFind_some hf
    subst h1
    omega
  | none =>
    rw [hf] at h
    cases h2 : spanResStep2 original cursor text with
    | some pe =>
      rw [h2] at h
      obtain rfl := Option.some.inj h
      obtain ⟨hc, _, he, hl, _⟩ := spanResStep2_some h2
      omega
    | none =>
      rw [h2] at h
      obtain ⟨hc, hs, he, _⟩ := spanResStep3_some h
      omega

theorem spanRes_some_strict {original text : List Char} {cursor s e : Nat}
    (hne : text ≠ []) (h : spanRes original cursor text = some (s, e)) :
    s < e := by
  have htl : 0 < text.length := List.length_pos.mpr hne
  unfold spanRes at h
  cases hf : pyFind original text cursor with
  | some p =>
    rw [hf] at h
    obtain ⟨h1, h2⟩ := Prod.mk.injEq .. ▸ Option.some.inj h
    omega
  | none =>
    rw [hf] at h
    cases h2 : spanResStep2 original cursor text with
    | some pe =>
      rw [h2] at h
      obtain rfl := Option.some.inj h
      obtain ⟨_, hnz, he, _, _⟩ := spanResStep2_some h2
      have := List.length_pos.mpr hnz
      omega
    | none =>
      rw [h2] at h
      obtain ⟨_, hs, he, _⟩ := spanResStep3_some h
      omega

theorem spanRes_of_step1 {original text : List Char} {cursor p : Nat}
    (hf : pyFind original text cursor = some p) :
    spanRes original cursor text = some (p, p + text.length) := by
  unfold spanRes
  rw [hf]

theorem spanRes_of_step2 {original text : List Char} {cursor p : Nat}
    (h1 : pyFind original text cursor = none)
    (hg1 : pyStrip text ≠ []) (hg2 : pyStrip text ≠ text)
    (hf : pyFind original (pyStrip text) cursor = some p) :
    spanRes original cursor text = some (p, p + (pyStrip text).length) := by
  unfold spanRes spanResStep2
  rw [h1, if_pos ⟨hg1, hg2⟩, hf]

/-! ### The span locator loop -/

theorem addSpansGo_getElem? (original : List Char) (cursor : Nat)
    (chunks : List Document) (i : Nat) :
    (addSpansGo original cursor chunks)[i]? =
      (chunks[i]?).map
        (fun c => (spanStep original (cursorBefore original cursor chunks i) c).1) := by
  induction chunks generalizing cursor i with
  | nil => simp [addSpansGo, cursorBefore]
  | cons c rest ih =>
    cases i with
    | zero => simp [addSpansGo, cursorBefore]
    | succ n => simp [addSpansGo, cursorBefore, ih]

theorem spanStep_of_none {original : List Char} {cursor : Nat} {c : Document}
    (hr : spanRes original cursor c.page_content = none) :
    spanStep original cursor c =
      ({ c with metadata := setSpanMeta c.metadata MetaVal.vNone MetaVal.vNone }, cursor) := by
  unfold spanStep
  rw [hr]

theorem spanStep_of_some {original : List Char} {cursor s e : Nat} {c : Document}
    (hr : spanRes original cursor c.page_content = some (s, e)) :
    spanStep original cursor c =
      ({ c with metadata :=
          setSpanMeta c.metadata (MetaVal.vInt (Int.ofNat s)) (MetaVal.vInt (Int.ofNat e)) }, e) := by
  unfold spanStep
  rw [hr]

theorem spanStartOf_of_none {original : List Char} {cursor : Nat} {c : Document}
    (hr : spanRes original cursor c.page_content = none) :
    spanStartOf (spanStep original cursor c).1 = none := by
  rw [spanStep_of_none hr]
  simp [spanStartOf, metaGet_setSpanMeta_start]

theorem spanStartOf_of_some {original : List Char} {cursor s e : Nat} {c : Document}
    (hr : spanRes original cursor c.page_content = some (s, e)) :
    spanStartOf (spanStep original cursor c).1 = some (Int.ofNat s) := by
  rw [spanStep_of_some hr]
  simp [spanStartOf, metaGet_setSpanMeta_start]

theorem resolvedStarts_addSpansGo (original : List Char) (cursor : Nat)
    (chunks : List Document) :
    List.Sorted (· ≤ ·) (resolvedStarts (addSpansGo original cursor chunks)) ∧
      ∀ x ∈ resolvedStarts (addSpansGo original cursor chunks), Int.ofNat cursor ≤ x := by
  induction chunks generalizing cursor with
  | nil => simp [addSpansGo, resolvedStarts]
  | cons c rest ih =>
    rw [addSpansGo]
    cases hr : spanRes original cursor c.page_content with
    | none =>
      have h2 : (spanStep original cursor c).2 = cursor := by rw [spanStep_of_none hr]
      rw [resolvedStarts, List.filterMap_cons, spanStartOf_of_none hr, h2]
      exact ih cursor
    | some se =>
      obtain ⟨s, e⟩ := se
      have h2 : (spanStep original cursor c).2 = e := by rw [spanStep_of_some hr]
      rw [resolvedStarts, List.filterMap_cons, spanStartOf_of_some hr, h2]
      obtain ⟨hc, hse, _⟩ := spanRes_some hr
      obtain ⟨ihs, ihb⟩ := ih e
      rw [resolvedStarts] at ihs ihb
      constructor
      · rw [List.sorted_cons]
        refine ⟨fun b hb => ?_, ihs⟩
        have hbe := ihb b hb
        rw [Int.ofNat_eq_coe] at hbe ⊢
        omega
      · intro x hx
        rw [Int.ofNat_eq_coe]
        rcases List.mem_cons.mp hx with h | h
        · subst h; rw [Int.ofNat_eq_coe]; omega
        · have hxe := ihb x h; rw [Int.ofNat_eq_coe] at hxe; omega

/-! ### Claims about the span locator -/

/-- Claim C1: whenever a chunk's span is resolved by the exact match
(step 1) or by the whitespace-stripped match (step 2) of
`add_spans_inplace`, the recorded offsets slice the original text back
to exactly the chunk's content (step 1) or its stripped content
(step 2). -/
theorem C1_span_slice_correct (original : List Char) (chunks : List Document)
    (i : Nat) (c c' : Document)
    (hc : chunks[i]? = some c)
    (hc' : (add_spans_inplace original chunks)[i]? = some c') :
    (step1Fires original (cursorBefore original 0 chunks i) c.page_content = true →
      ∃ a : Nat,
        metaGet c'.metadata "span_start" = some (MetaVal.vInt (Int.ofNat a)) ∧
        metaGet c'.metadata "span_end" =
          some (MetaVal.vInt (Int.ofNat (a + c.page_content.length))) ∧
        pySlice original a (a + c.page_content.length) = c.page_content) ∧
    (step2Fires original (cursorBefore original 0 chunks i) c.page_content = true →
      ∃ a : Nat,
        metaGet c'.metadata "span_start" = some (MetaVal.vInt (Int.ofNat a)) ∧
        metaGet c'.metadata "span_end" =
          some (MetaVal.vInt (Int.ofNat (a + (pyStrip c.page_content).length))) ∧
        pySlice original a (a + (pyStrip c.page_content).length) = pyStrip c.page_content) := by
  rw [add_spans_inplace, addSpansGo_getElem?, hc, Option.map_some'] at hc'
  obtain rfl := Option.some.inj hc'
  constructor
  · intro hs
    rw [step1Fires, Option.isSome_iff_exists] at hs
    obtain ⟨p, hp⟩ := hs
    rw [spanStep_of_some (spanRes_of_step1 hp)]
    refine ⟨p, ?_, ?_, ?_⟩
    · simp [metaGet_setSpanMeta_start]
    · simp [metaGet_setSpanMeta_end]
    · exact (pyFind_some hp).2.2
  · intro hs
    rw [step2Fires] at hs
    simp only [Bool.and_eq_true, decide_eq_true_eq, Option.isNone_iff_eq_none,
      Option.isSome_iff_exists] at hs
    obtain ⟨⟨h1, hg1, hg2⟩, p, hp⟩ := hs
    rw [spanStep_of_some (spanRes_of_step2 h1 hg1 hg2 hp)]
    refine ⟨p, ?_, ?_, ?_⟩
    · simp [metaGet_setSpanMeta_start]
    · simp [metaGet_setSpanMeta_end]
    · exact (pyFind_some hp).2.2

/-- Claim C2: across one call of `add_spans_inplace`, the resolved
`span_start` values (nulls skipped) are non-decreasing in chunk
order. -/
theorem C2_span_starts_monotone (original : List Char) (chunks : List Document) :
    List.Sorted (· ≤ ·) (resolvedStarts (add_spans_inplace original chunks)) :=
  (resolvedStarts_addSpansGo original 0 chunks).1

/-- Claim C5: when all three match attempts fail for a chunk, the span
locator stores null in both `span_start` and `span_end`, leaves the
cursor unchanged, and continues with the next chunk (it never raises:
the embedded locator is a total function). -/
theorem C5_unmatched_sets_null (original : List Char) (cursor : Nat)
    (c : Document) (rest : List Document)
    (h1 : pyFind original c.page_content cursor = none)
    (h2 : pyStrip c.page_content ≠ [] → pyStrip c.page_content ≠ c.page_content →
      pyFind original (pyStrip c.page_content) cursor = none)
    (h3 : pyStrip (c.page_content.take (min 200 c.page_content.length)) ≠ [] →
      pyFind original (pyStrip (c.page_content.take (min 200 c.page_content.length)))
        cursor = none) :
    addSpansGo original cursor (c :: rest) =
      { c with metadata := setSpanMeta c.metadata MetaVal.vNone MetaVal.vNone } ::
        addSpansGo original cursor rest ∧
    metaGet (setSpanMeta c.metadata MetaVal.vNone MetaVal.vNone) "span_start" =
      some MetaVal.vNone ∧
    metaGet (setSpanMeta c.metadata MetaVal.vNone MetaVal.vNone) "span_end" =
      some MetaVal.vNone := by
  have hs2 : spanResStep2 original cursor c.page_content = none := by
    unfold spanResStep2
    by_cases hg : pyStrip c.page_content ≠ [] ∧ pyStrip c.page_content ≠ c.page_content
    · rw [if_pos hg, h2 hg.1 hg.2]
    · rw [if_neg hg]
  have hs3 : spanResStep3 original cursor c.page_content = none := by
    unfold spanResStep3
    by_cases hg : pyStrip (c.page_content.take (min 200 c.page_content.length)) ≠ []
    · rw [if_pos hg, h3 hg]
    · rw [if_neg hg]
  have hr : spanRes original cursor c.page_content = none := by
    unfold spanRes
    rw [h1, hs2, hs3]
  refine ⟨?_, metaGet_setSpanMeta_start _ _ _, metaGet_setSpanMeta_end _ _ _⟩
  have hgo : addSpansGo original cursor (c :: rest) =
      (spanStep original cursor c).1 ::
        addSpansGo original (spanStep original cursor c).2 rest := rfl
  rw [hgo, spanStep_of_none hr]

/-- Claim C6: every resolved span of the locator satisfies
`0 ≤ span_start < span_end ≤ len(original_text)`, for chunk sequences
whose contents are non-empty (as produced by the segmenter, which never
emits empty chunks). -/
theorem C6_span_bounds (original : List Char) (chunks : List Document) (i : Nat)
    (c' : Document) (a b : Int)
    (hne : ∀ c ∈ chunks, c.page_content ≠ [])
    (hc' : (add_spans_inplace original chunks)[i]? = some c')
    (ha : metaGet c'.metadata "span_start" = some (MetaVal.vInt a))
    (hb : metaGet c'.metadata "span_end" = some (MetaVal.vInt b)) :
    0 ≤ a ∧ a < b ∧ b ≤ (original.length : Int) := by
  rw [add_spans_inplace, addSpansGo_getElem?] at hc'
  cases hcc : chunks[i]? with
  | none => rw [hcc] at hc'; exact absurd hc' (by simp)
  | some c =>
    rw [hcc, Option.map_some'] at hc'
    obtain rfl := Option.some.inj hc'
    have hcne : c.page_content ≠ [] := hne c (List.getElem?_mem hcc)
    cases hr : spanRes original (cursorBefore original 0 chunks i) c.page_content with
    | none =>
      rw [spanStep_of_none hr] at ha
      simp [metaGet_setSpanMeta_start] at ha
    | some se =>
      obtain ⟨s, e⟩ := se
      rw [spanStep_of_some hr] at ha hb
      simp only [metaGet_setSpanMeta_start, metaGet_setSpanMeta_end,
        Option.some.injEq, MetaVal.vInt.injEq, Int.ofNat_eq_coe] at ha hb
      obtain ⟨h1, h2, h3⟩ := spanRes_some hr
      have h4 := spanRes_some_strict hcne hr
      omega

/-! ### Concrete runs used by the witnesses of the span claims -/

/-- Witness input text for the span-locator claims. -/
def spanExOriginal : List Char := ("hello world").toList

/-- Witness chunk whose content occurs verbatim in `spanExOriginal`. -/
def spanExChunk : Document := { page_content := ("world").toList, metadata := [] }

/-- The locator's output on the witness input. -/
def spanExOut : Document :=
  (add_spans_inplace spanExOriginal [spanExChunk]).headD default

theorem C1_witness :
    step1Fires spanExOriginal 0 spanExChunk.page_content = true ∧
    ((step1Fires spanExOriginal (cursorBefore spanExOriginal 0 [spanExChunk] 0)
        spanExChunk.page_content = true →
      ∃ a : Nat,
        metaGet spanExOut.metadata "span_start" = some (MetaVal.vInt (Int.ofNat a)) ∧
        metaGet spanExOut.metadata "span_end" =
          some (MetaVal.vInt (Int.ofNat (a + spanExChunk.page_content.length))) ∧
        pySlice spanExOriginal a (a + spanExChunk.page_content.length) =
          spanExChunk.page_content) ∧
    (step2Fires spanExOriginal (cursorBefore spanExOriginal 0 [spanExChunk] 0)
        spanExChunk.page_content = true →
      ∃ a : Nat,
        metaGet spanExOut.metadata "span_start" = some (MetaVal.vInt (Int.ofNat a)) ∧
        metaGet spanExOut.metadata "span_end" =
          some (MetaVal.vInt (Int.ofNat (a + (pyStrip spanExChunk.page_content).length))) ∧
        pySlice spanExOriginal a (a + (pyStrip spanExChunk.page_content).length) =
          pyStrip spanExChunk.page_content)) :=
  ⟨by decide, C1_span_slice_correct spanExOriginal [spanExChunk] 0 spanExChunk spanExOut rfl rfl⟩

theorem C6_witness :
    (0 : Int) ≤ 6 ∧ (6 : Int) < 11 ∧ (11 : Int) ≤ (spanExOriginal.length : Int) :=
  C6_span_bounds spanExOriginal [spanExChunk] 0 spanExOut 6 11
    (by decide) rfl rfl rfl

theorem C5_witness :
    addSpansGo (("xyz").toList) 0
        [{ page_content := ("ab").toList, metadata := [] }] =
      [{ page_content := ("ab").toList,
         metadata := setSpanMeta [] MetaVal.vNone MetaVal.vNone }] ∧
    metaGet (setSpanMeta ([] : Metadata) MetaVal.vNone MetaVal.vNone) "span_start" =
      some MetaVal.vNone ∧
    metaGet (setSpanMeta ([] : Metadata) MetaVal.vNone MetaVal.vNone) "span_end" =
      some MetaVal.vNone :=
  C5_unmatched_sets_null (("xyz").toList) 0
    { page_content := ("ab").toList, metadata := [] } []
    (by decide) (fun _ hne => absurd rfl hne) (fun _ => by decide)

/-! ### The metadata annotator -/

theorem annotateOne_gets (method : String) (cs co : Int) (idx : Nat) (c : Document) :
    (annotateOne method cs co idx c).page_content = c.page_content ∧
    metaGet (annotateOne method cs co idx c).metadata "chunk_index" =
      some (MetaVal.vInt (Int.ofNat idx)) ∧
    metaGet (annotateOne method cs co idx c).metadata "chunk_chars" =
      some (MetaVal.vInt (Int.ofNat c.page_content.length)) ∧
    metaGet (annotateOne method cs co idx c).metadata "chunking_method" =
      some (MetaVal.vStr method) ∧
    metaGet (annotateOne method cs co idx c).metadata "chunk_size" =
      some (MetaVal.vInt cs) ∧
    metaGet (annotateOne method cs co idx c).metadata "chunk_overlap" =
      some (MetaVal.vInt co) ∧
    (metaGet (annotateOne method cs co idx c).metadata "source").isSome = true ∧
    ∀ k : String, k ≠ "source" → k ≠ "chunk_index" → k ≠ "chunk_chars" →
      k ≠ "chunking_method" → k ≠ "chunk_size" → k ≠ "chunk_overlap" →
      metaGet (annotateOne method cs co idx c).metadata k = metaGet c.metadata k := by
  simp only [annotateOne]
  refine ⟨by trivial, ?_, ?_, ?_, ?_, ?_, ?_, ?_⟩
  · rw [metaGet_metaSet_ne _ _ (by decide), metaGet_metaSet_ne _ _ (by decide),
      metaGet_metaSet_ne _ _ (by decide), metaGet_metaSet_ne _ _ (by decide),
      metaGet_metaSet_self]
  · rw [metaGet_metaSet_ne _ _ (by decide), metaGet_metaSet_ne _ _ (by decide),
      metaGet_metaSet_ne _ _ (by decide), metaGet_metaSet_self]
  · rw [metaGet_metaSet_ne _ _ (by decide), metaGet_metaSet_ne _ _ (by decide),
      metaGet_metaSet_self]
  · rw [metaGet_metaSet_ne _ _ (by decide), metaGet_metaSet_self]
  · rw [metaGet_metaSet_self]
  · rw [metaGet_metaSet_ne _ _ (by decide), metaGet_metaSet_ne _ _ (by decide),
      metaGet_metaSet_ne _ _ (by decide), metaGet_metaSet_ne _ _ (by decide),
      metaGet_metaSet_ne _ _ (by decide)]
    exact isSome_metaGet_metaSetdefault _ _ _
  · intro k h1 h2 h3 h4 h5 h6
    rw [metaGet_metaSet_ne _ _ (Ne.symm h6), metaGet_metaSet_ne _ _ (Ne.symm h5),
      metaGet_metaSet_ne _ _ (Ne.symm h4), metaGet_metaSet_ne _ _ (Ne.symm h3),
      metaGet_metaSet_ne _ _ (Ne.symm h2), metaGet_metaSetdefault_ne _ _ (Ne.symm h1)]

theorem annotateGo_getElem? (method : String) (cs co : Int) (idx : Nat)
    (l : List Document) (i : Nat) :
    (annotateGo method cs co idx l)[i]? =
      (l[i]?).map (annotateOne method cs co (idx + i)) := by
  induction l generalizing idx i with
  | nil => simp [annotateGo]
  | cons c rest ih =>
    cases i with
    | zero => simp [annotateGo]
    | succ n =>
      have hn : idx + (n + 1) = (idx + 1) + n := by omega
      simp [annotateGo, ih, hn]

theorem annotateGo_map_index (method : String) (cs co : Int) (idx : Nat)
    (l : List Document) :
    (annotateGo method cs co idx l).map (fun d => metaGet d.metadata "chunk_index") =
      (List.range' idx l.length).map (fun j => some (MetaVal.vInt (Int.ofNat j))) := by
  induction l generalizing idx with
  | nil => simp [annotateGo]
  | cons c rest ih =>
    have hr : List.range' idx (rest.length + 1) =
        idx :: List.range' (idx + 1) rest.length := List.range'_succ _ _ _
    simp only [annotateGo, List.map_cons, List.length_cons, hr]
    rw [(annotateOne_gets method cs co idx c).2.1, ih (idx + 1)]

/-- Claim C7: the annotator gives the chunk at position `i` the fields
`chunk_index = i`, `chunk_chars = len(content)`, and the configured
`chunking_method`/`chunk_size`/`chunk_overlap`; it leaves the content
and any `h1`/`h2`/`h3` header metadata untouched, and the resulting
`chunk_index` values are exactly `0, …, n-1`. -/
theorem C7_annotate_metadata (method : String) (cs co : Int) (chunks : List Document)
    (i : Nat) (c c' : Document)
    (hc : chunks[i]? = some c)
    (hc' : (annotate method cs co chunks)[i]? = some c') :
    c'.page_content = c.page_content ∧
    metaGet c'.metadata "chunk_index" = some (MetaVal.vInt (Int.ofNat i)) ∧
    metaGet c'.metadata "chunk_chars" =
      some (MetaVal.vInt (Int.ofNat c.page_content.length)) ∧
    metaGet c'.metadata "chunking_method" = some (MetaVal.vStr method) ∧
    metaGet c'.metadata "chunk_size" = some (MetaVal.vInt cs) ∧
    metaGet c'.metadata "chunk_overlap" = some (MetaVal.vInt co) ∧
    metaGet c'.metadata "h1" = metaGet c.metadata "h1" ∧
    metaGet c'.metadata "h2" = metaGet c.metadata "h2" ∧
    metaGet c'.metadata "h3" = metaGet c.metadata "h3" ∧
    (annotate method cs co chunks).map (fun d => metaGet d.metadata "chunk_index") =
      (List.range chunks.length).map (fun j => some (MetaVal.vInt (Int.ofNat j))) := by
  rw [annotate, annotateGo_getElem?, hc, Option.map_some'] at hc'
  obtain rfl := Option.some.inj hc'
  rw [Nat.zero_add]
  obtain ⟨hpc, hci, hcc2, hcm, hcs2, hco2, _, hother⟩ :=
    annotateOne_gets method cs co i c
  refine ⟨hpc, hci, hcc2, hcm, hcs2, hco2,
    hother "h1" (by decide) (by decide) (by decide) (by decide) (by decide) (by decide),
    hother "h2" (by decide) (by decide) (by decide) (by decide) (by decide) (by decide),
    hother "h3" (by decide) (by decide) (by decide) (by decide) (by decide) (by decide),
    ?_⟩
  rw [annotate, annotateGo_map_index, List.range_eq_range']

theorem annotateOne_idem (method : String) (cs co : Int) (idx : Nat) (c : Document) :
    annotateOne method cs co idx (annotateOne method cs co idx c) =
      annotateOne method cs co idx c := by
  obtain ⟨hpc, hci, hcc2, hcm, hcs2, hco2, hsome, _⟩ :=
    annotateOne_gets method cs co idx c
  generalize hA : annotateOne method cs co idx c = A at hpc hci hcc2 hcm hcs2 hco2 hsome ⊢
  simp only [annotateOne]
  rw [hpc, metaSetdefault_of_isSome _ hsome, metaSet_of_get_eq hci,
    metaSet_of_get_eq hcc2, metaSet_of_get_eq hcm, metaSet_of_get_eq hcs2,
    metaSet_of_get_eq hco2, ← hpc]

theorem annotateGo_idem (method : String) (cs co : Int) (idx : Nat)
    (l : List Document) :
    annotateGo method cs co idx (annotateGo method cs co idx l) =
      annotateGo method cs co idx l := by
  induction l generalizing idx with
  | nil => rfl
  | cons c rest ih => simp [annotateGo, annotateOne_idem, ih]

/-- Claim C8: annotation is idempotent — re-running the annotation pass
with the same configuration on an already annotated sequence changes
neither content nor any metadata field. -/
theorem C8_annotate_idempotent (method : String) (cs co : Int)
    (chunks : List Document) :
    annotate method cs co (annotate method cs co chunks) =
      annotate method cs co chunks :=
  annotateGo_idem method cs co 0 chunks

/-- Witness chunk list for the annotator claims. -/
def annExChunks : List Document :=
  [{ page_content := ("ab").toList, metadata := [("h1", MetaVal.vStr "T")] }]

/-- The annotator's output on the witness chunk list. -/
def annExOut : Document := (annotate "auto" 800 120 annExChunks).headD default

theorem C7_witness :
    annExOut.page_content = ("ab").toList ∧
    metaGet annExOut.metadata "chunk_index" = some (MetaVal.vInt (Int.ofNat 0)) ∧
    metaGet annExOut.metadata "chunk_chars" =
      some (MetaVal.vInt (Int.ofNat (("ab").toList.length))) ∧
    metaGet annExOut.metadata "chunking_method" = some (MetaVal.vStr "auto") ∧
    metaGet annExOut.metadata "chunk_size" = some (MetaVal.vInt 800) ∧
    metaGet annExOut.metadata "chunk_overlap" = some (MetaVal.vInt 120) ∧
    metaGet annExOut.metadata "h1" = metaGet [("h1", MetaVal.vStr "T")] "h1" ∧
    metaGet annExOut.metadata "h2" = metaGet [("h1", MetaVal.vStr "T")] "h2" ∧
    metaGet annExOut.metadata "h3" = metaGet [("h1", MetaVal.vStr "T")] "h3" ∧
    (annotate "auto" 800 120 annExChunks).map
        (fun d => metaGet d.metadata "chunk_index") =
      (List.range annExChunks.length).map (fun j => some (MetaVal.vInt (Int.ofNat j))) :=
  C7_annotate_metadata "auto" 800 120 annExChunks 0
    { page_content := ("ab").toList, metadata := [("h1", MetaVal.vStr "T")] }
    annExOut rfl rfl

/-! ### Claims about the pipeline entry point -/

/-- Claim C3 (counterexample): with `chunk_size = chunk_overlap = 800`
no configuration error is raised — `chunk_documents` runs to completion
and returns chunks, because the splitter constructor only rejects a
strictly larger overlap. -/
theorem C3_counterexample :
    chunk_documents (fun _ => []) (fun ds => ds)
      [{ page_content := ("hi").toList, metadata := [("source", MetaVal.vStr "a.txt")] }]
      800 800 "auto" false false =
    Except.ok
      [{ page_content := ("hi").toList, metadata := [("source", MetaVal.vStr "a.txt")] }] := by
  rfl

/-- Claim C3 (amended): a configuration error is raised synchronously,
before any splitter runs, exactly when `chunk_overlap > chunk_size`;
the boundary pair `chunk_overlap = chunk_size` is accepted. -/
theorem C3_amended_config_error (header_splitter : List Char → List Document)
    (splitter : List Document → List Document) (docs : List Document)
    (chunk_size chunk_overlap : Int) (method : String) (ipm isp : Bool)
    (h : chunk_size < chunk_overlap) :
    chunk_documents header_splitter splitter docs chunk_size chunk_overlap method
      ipm isp = Except.error configErrorMsg := by
  unfold chunk_documents build_splitters
  rw [if_pos h]

theorem C3_amended_witness :
    chunk_documents (fun _ => []) (fun ds => ds) [] 800 900 "auto" false false =
      Except.error configErrorMsg :=
  C3_amended_config_error _ _ _ _ _ _ _ _ (by decide)

/-- Claim C4: requesting spans for a batch of more than one document is
rejected with the usage error, and no span is assigned (the call returns
the error instead of chunks). -/
theorem C4_multi_doc_usage_error (header_splitter : List Char → List Document)
    (splitter : List Document → List Document) (docs : List Document)
    (chunk_size chunk_overlap : Int) (method : String) (ipm : Bool)
    (hcfg : chunk_overlap ≤ chunk_size) (hn : 1 < docs.length) :
    chunk_documents header_splitter splitter docs chunk_size chunk_overlap method
      ipm true = Except.error spanUsageErrorMsg := by
  have hne : docs.length ≠ 1 := by omega
  simp [chunk_documents, build_splitters, not_lt.mpr hcfg, hne]

theorem C4_witness :
    chunk_documents (fun _ => []) (fun ds => ds)
      [{ page_content := ("a").toList, metadata := [] },
       { page_content := ("b").toList, metadata := [] }]
      800 120 "auto" false true = Except.error spanUsageErrorMsg :=
  C4_multi_doc_usage_error _ _ _ _ _ _ _ (by decide) (by decide)

/-- Claim C10: an empty batch with spans requested is rejected with the
same usage error as a multi-document batch, not treated as a trivially
valid call. -/
theorem C10_empty_batch_usage_error (header_splitter : List Char → List Document)
    (splitter : List Document → List Document)
    (chunk_size chunk_overlap : Int) (method : String) (ipm : Bool)
    (hcfg : chunk_overlap ≤ chunk_size) :
    chunk_documents header_splitter splitter [] chunk_size chunk_overlap method
      ipm true = Except.error spanUsageErrorMsg := by
  simp [chunk_documents, build_splitters, not_lt.mpr hcfg]

theorem C10_witness :
    chunk_documents (fun _ => []) (fun ds => ds) [] 800 120 "auto" false true =
      Except.error spanUsageErrorMsg :=
  C10_empty_batch_usage_error _ _ _ _ _ _ (by decide)

/-- Claim C9: every method string other than `recursive_only` falls
through to the auto behaviour (Markdown-header splitting for `.md`/`.mdx`
sources, plain windowing otherwise); no method value is rejected. -/
theorem C9_unknown_method_falls_to_auto (header_splitter : List Char → List Document)
    (splitter : List Document → List Document) (docs : List Document)
    (chunk_size chunk_overlap : Int) (method : String)
    (hm : method ≠ "recursive_only") (hcfg : chunk_overlap ≤ chunk_size) :
    chunk_documents header_splitter splitter docs chunk_size chunk_overlap method
      false false =
      Except.ok (split_documents_auto header_splitter splitter docs) := by
  simp [chunk_documents, build_splitters, not_lt.mpr hcfg, hm]

theorem C9_witness :
    chunk_documents (fun _ => []) (fun ds => ds)
      [{ page_content := ("hi").toList, metadata := [] }]
      800 120 "recursive_onlyy" false false =
      Except.ok (split_documents_auto (fun _ => [])
        (fun ds => ds) [{ page_content := ("hi").toList, metadata := [] }]) :=
  C9_unknown_method_falls_to_auto _ _ _ _ _ _ (by decide) (by decide)
